import Mathlib

/-!
# Verification of `raftstore/coprocessor/region_collection.rs`

A shallow embedding of the `RegionCollectionWorker` state store from
`src/raftstore/coprocessor/region_collection.rs` together with proofs of
the testable properties stated in the specification.

Modelling decisions:

* Byte strings (`Vec<u8>`) are modelled as `List Nat`; the lexicographic
  `LinearOrder` on lists mirrors the ordering `Ord for Vec<u8>` used by
  `BTreeMap`.
* The `BTreeMap<Vec<u8>, u64>` index `region_ranges` and the
  `HashMap<u64, RegionInfo>` index `regions` are both modelled as
  association lists kept strictly sorted by key (`minsert`, `mremove`,
  `mget` below).  A sorted association list is the canonical form of a
  finite map, so structural equality of models coincides with
  observational equality of the Rust maps.
* Fallible code is modelled with `Option`: the unchecked index
  `self.regions[region_id]` in `handle_seek_region` yields `none`
  (a Rust panic) when the id is dangling, and the `assert!(limit > 0)`
  precondition yields `none` when violated.
-/

namespace RegionCollection

/-- Replica role, mirroring `raft::StateRole`.  Modelled from the spec:
the `raft` crate is an external dependency; the spec lists the roles
Leader, Follower, Candidate, PreCandidate. -/
inductive StateRole : Type where
  | Follower : StateRole
  | Candidate : StateRole
  | Leader : StateRole
  | PreCandidate : StateRole
deriving DecidableEq, Repr

/-- Region descriptor, mirroring the fields of `kvproto::metapb::Region`
that the collection reads (`get_id`, `get_start_key`, `get_end_key`).
Modelled from the spec: `kvproto` is an external dependency; the spec
says a region carries `id : u64`, `start_key : bytes`, `end_key : bytes`
(empty meaning unbounded). -/
structure Region : Type where
  id : Nat
  start_key : List Nat
  end_key : List Nat
deriving DecidableEq, Repr

/-- `RegionInfo` from `region_collection.rs` (lines 53-68). -/
structure RegionInfo : Type where
  region : Region
  role : StateRole
  outdated : Bool
deriving DecidableEq, Repr

/-! ## Key encoding

Modelled from the spec: `raftstore::store::keys` (`data_key`,
`data_end_key`, `origin_key`, `DATA_MAX_KEY`) is not part of the given
source; the spec describes it as the key-encoding utility prefixing keys
(the source comments say `'z' + end_key`) and substituting a
maximum-key sentinel for an empty end key.  In TiKV the prefix byte is
`'z' = 122` and the sentinel is the next byte `123`. -/

/-- Modelled from the spec: the maximum-key sentinel (`keys::DATA_MAX_KEY`),
the byte right after the data prefix `'z'`. -/
def DATA_MAX_KEY : List Nat := [123]

/-- Modelled from the spec: `keys::data_key`, prefixing a key with `'z'`. -/
def data_key (key : List Nat) : List Nat := 122 :: key

/-- Modelled from the spec: `keys::data_end_key`, encoding an end key,
with the maximum-key sentinel substituted for the empty (unbounded) end
key. -/
def data_end_key (key : List Nat) : List Nat :=
  if key = [] then DATA_MAX_KEY else data_key key

/-- Modelled from the spec: `keys::origin_key`, stripping the one-byte
data prefix again (the decoding used for `next_key`). -/
def origin_key (key : List Nat) : List Nat := key.drop 1

theorem data_end_key_injective {a b : List Nat} (h : data_end_key a = data_end_key b) :
    a = b := by
  unfold data_end_key DATA_MAX_KEY data_key at h
  by_cases ha : a = [] <;> by_cases hb : b = [] <;> simp [ha, hb] at h <;> simp [ha, hb, h]

theorem data_end_key_lt_max {k : List Nat} (h : k ≠ []) :
    data_end_key k < DATA_MAX_KEY := by
  have : data_end_key k = 122 :: k := by simp [data_end_key, data_key, h]
  rw [this]
  exact List.Lex.rel (by norm_num)

theorem max_le_data_end_key_iff (k : List Nat) :
    (DATA_MAX_KEY ≤ data_end_key k ↔ data_end_key k = DATA_MAX_KEY) := by
  constructor
  · intro hle
    by_cases hk : k = []
    · simp [data_end_key, hk]
    · exact absurd (lt_of_le_of_lt hle (data_end_key_lt_max hk)) (lt_irrefl _)
  · intro h
    rw [h]

/-! ## Sorted association maps

Canonical model of `HashMap` / `BTreeMap`: a list of key-value pairs
strictly sorted by key.  `mget`, `minsert`, `mremove` model `get`,
`insert` and `remove`. -/

/-- Lookup in an association map (`HashMap::get` / `BTreeMap::get`). -/
def mget {K V : Type} [DecidableEq K] : List (K × V) → K → Option V
  | [], _ => none
  | (k', v') :: rest, k => if k = k' then some v' else mget rest k

/-- Sorted insertion (`HashMap::insert` / `BTreeMap::insert`): replaces
the value if the key is present, otherwise inserts at the sorted
position. -/
def minsert {K V : Type} [LinearOrder K] [DecidableEq K] : List (K × V) → K → V → List (K × V)
  | [], k, v => [(k, v)]
  | (k', v') :: rest, k, v =>
    if k < k' then (k, v) :: (k', v') :: rest
    else if k = k' then (k, v) :: rest
    else (k', v') :: minsert rest k v

/-- Removal (`HashMap::remove` / `BTreeMap::remove`). -/
def mremove {K V : Type} [DecidableEq K] : List (K × V) → K → List (K × V)
  | [], _ => []
  | (k', v') :: rest, k => if k = k' then rest else (k', v') :: mremove rest k

/-- Well-formedness of the model: keys strictly sorted (hence unique),
as in any `BTreeMap` and in the canonical form of a `HashMap`. -/
def MapWF {K V : Type} [LinearOrder K] (m : List (K × V)) : Prop :=
  List.Pairwise (fun a b => a.1 < b.1) m

instance {K V : Type} [LinearOrder K] (m : List (K × V)) : Decidable (MapWF m) :=
  inferInstanceAs (Decidable (List.Pairwise _ m))

section MapLemmas

variable {K V : Type} [LinearOrder K] [DecidableEq K]

theorem mget_minsert_self (m : List (K × V)) (k : K) (v : V) :
    mget (minsert m k v) k = some v := by
  induction m with
  | nil => simp [minsert, mget]
  | cons hd tl ih =>
    obtain ⟨k', v'⟩ := hd
    by_cases h1 : k < k'
    · simp [minsert, h1, mget]
    · by_cases h2 : k = k'
      · simp [minsert, h1, h2, mget]
      · simp [minsert, h1, h2, mget, ih]

theorem mget_minsert_ne (m : List (K × V)) {k k' : K} (v : V) (h : k' ≠ k) :
    mget (minsert m k v) k' = mget m k' := by
  induction m with
  | nil => simp [minsert, mget, h]
  | cons hd tl ih =>
    obtain ⟨k₀, v₀⟩ := hd
    by_cases h1 : k < k₀
    · simp [minsert, h1, mget, h]
    · by_cases h2 : k = k₀
      · subst h2
        simp [minsert, h1, mget, h]
      · by_cases h3 : k' = k₀ <;> simp [minsert, h1, h2, mget, h3, ih]

theorem mem_minsert {m : List (K × V)} {k : K} {v : V} {e : K × V}
    (h : e ∈ minsert m k v) : e = (k, v) ∨ e ∈ m := by
  induction m with
  | nil => simpa [minsert] using h
  | cons hd tl ih =>
    obtain ⟨k₀, v₀⟩ := hd
    by_cases h1 : k < k₀
    · simp only [minsert, if_pos h1, List.mem_cons] at h
      rcases h with h | h | h
      · exact Or.inl h
      · exact Or.inr (by simp [h])
      · exact Or.inr (by simp [h])
    · by_cases h2 : k = k₀
      · simp only [minsert, if_neg h1, if_pos h2, List.mem_cons] at h
        rcases h with h | h
        · exact Or.inl h
        · exact Or.inr (by simp [h])
      · simp only [minsert, if_neg h1, if_neg h2, List.mem_cons] at h
        rcases h with h | h
        · exact Or.inr (by simp [h])
        · rcases ih h with h' | h'
          · exact Or.inl h'
          · exact Or.inr (by simp [h'])

theorem mem_mremove {m : List (K × V)} {k : K} {e : K × V}
    (h : e ∈ mremove m k) : e ∈ m := by
  induction m with
  | nil => simp [mremove] at h
  | cons hd tl ih =>
    obtain ⟨k₀, v₀⟩ := hd
    by_cases h1 : k = k₀
    · simp only [mremove, if_pos h1] at h
      exact List.mem_cons_of_mem _ h
    · simp only [mremove, if_neg h1, List.mem_cons] at h
      rcases h with h | h
      · simp [h]
      · exact List.mem_cons_of_mem _ (ih h)

theorem mapwf_minsert {m : List (K × V)} (hm : MapWF m) (k : K) (v : V) :
    MapWF (minsert m k v) := by
  induction m with
  | nil => simp [minsert, MapWF]
  | cons hd tl ih =>
    obtain ⟨k₀, v₀⟩ := hd
    rw [MapWF, List.pairwise_cons] at hm
    obtain ⟨hlt, htl⟩ := hm
    by_cases h1 : k < k₀
    · rw [MapWF, minsert, if_pos h1]
      refine List.Pairwise.cons ?_ (List.Pairwise.cons hlt htl)
      intro e he
      rcases List.mem_cons.mp he with rfl | he'
      · exact h1
      · exact lt_trans h1 (hlt e he')
    · by_cases h2 : k = k₀
      · subst h2
        rw [MapWF, minsert, if_neg h1, if_pos rfl]
        exact List.Pairwise.cons hlt htl
      · rw [MapWF, minsert, if_neg h1, if_neg h2]
        refine List.Pairwise.cons ?_ (ih htl)
        intro e he
        rcases mem_minsert he with rfl | he'
        · exact lt_of_le_of_ne (le_of_not_lt h1) (Ne.symm h2)
        · exact hlt e he'

theorem mapwf_mremove {m : List (K × V)} (hm : MapWF m) (k : K) :
    MapWF (mremove m k) := by
  induction m with
  | nil => simp [mremove, MapWF]
  | cons hd tl ih =>
    obtain ⟨k₀, v₀⟩ := hd
    rw [MapWF, List.pairwise_cons] at hm
    obtain ⟨hlt, htl⟩ := hm
    by_cases h1 : k = k₀
    · rw [MapWF, mremove, if_pos h1]
      exact htl
    · rw [MapWF, mremove, if_neg h1]
      exact List.Pairwise.cons (fun e he => hlt e (mem_mremove he)) (ih htl)

theorem mem_of_mget_eq_some {m : List (K × V)} {k : K} {v : V}
    (h : mget m k = some v) : (k, v) ∈ m := by
  induction m with
  | nil => simp [mget] at h
  | cons hd tl ih =>
    obtain ⟨k₀, v₀⟩ := hd
    by_cases h1 : k = k₀
    · rw [mget, if_pos h1] at h
      injection h with h2
      simp [h1, h2]
    · simp only [mget, if_neg h1] at h
      exact List.mem_cons_of_mem _ (ih h)

theorem mget_eq_none_of_forall_lt {m : List (K × V)} {k : K}
    (h : ∀ e ∈ m, k < e.1) : mget m k = none := by
  induction m with
  | nil => simp [mget]
  | cons hd tl ih =>
    obtain ⟨k₀, v₀⟩ := hd
    have hk : k ≠ k₀ := ne_of_lt (h (k₀, v₀) (by simp))
    simp only [mget, if_neg hk]
    exact ih fun e he => h e (List.mem_cons_of_mem _ he)

theorem mget_eq_some_of_mem {m : List (K × V)} (hm : MapWF m) {k : K} {v : V}
    (h : (k, v) ∈ m) : mget m k = some v := by
  induction m with
  | nil => simp at h
  | cons hd tl ih =>
    obtain ⟨k₀, v₀⟩ := hd
    rw [MapWF, List.pairwise_cons] at hm
    obtain ⟨hlt, htl⟩ := hm
    rcases List.mem_cons.mp h with heq | hmem
    · obtain ⟨h1, h2⟩ := Prod.mk.injEq .. ▸ heq
      simp [mget, h1, h2]
    · have : k₀ < k := hlt _ hmem
      simp only [mget, if_neg (ne_of_gt this)]
      exact ih htl hmem

theorem mget_mremove_self {m : List (K × V)} (hm : MapWF m) (k : K) :
    mget (mremove m k) k = none := by
  induction m with
  | nil => simp [mremove, mget]
  | cons hd tl ih =>
    obtain ⟨k₀, v₀⟩ := hd
    rw [MapWF, List.pairwise_cons] at hm
    obtain ⟨hlt, htl⟩ := hm
    by_cases h1 : k = k₀
    · rw [mremove, if_pos h1]
      exact mget_eq_none_of_forall_lt fun e he => h1 ▸ hlt e he
    · rw [mremove, if_neg h1]
      simp only [mget, if_neg h1]
      exact ih htl

theorem mget_mremove_ne (m : List (K × V)) {k k' : K} (h : k' ≠ k) :
    mget (mremove m k) k' = mget m k' := by
  induction m with
  | nil => simp [mremove]
  | cons hd tl ih =>
    obtain ⟨k₀, v₀⟩ := hd
    by_cases h1 : k = k₀
    · rw [mremove, if_pos h1]
      subst h1
      simp [mget, h]
    · rw [mremove, if_neg h1]
      by_cases h2 : k' = k₀ <;> simp [mget, h2, ih]

theorem mem_minsert_iff {m : List (K × V)} (hm : MapWF m) {k : K} {v : V} {e : K × V} :
    e ∈ minsert m k v ↔ e = (k, v) ∨ (e ∈ m ∧ e.1 ≠ k) := by
  constructor
  · intro h
    rcases mem_minsert h with rfl | hmem
    · exact Or.inl rfl
    · by_cases hk : e.1 = k
      · left
        obtain ⟨e1, e2⟩ := e
        simp only at hk
        subst hk
        have := mget_eq_some_of_mem hm hmem
        have h2 := mget_eq_some_of_mem (mapwf_minsert hm e1 v) h
        rw [mget_minsert_self] at h2
        simp at h2
        simp [h2]
      · exact Or.inr ⟨hmem, hk⟩
  · rintro (rfl | ⟨hmem, hne⟩)
    · exact mem_of_mget_eq_some (mget_minsert_self m k v)
    · obtain ⟨e1, e2⟩ := e
      have := mget_eq_some_of_mem hm hmem
      refine mem_of_mget_eq_some (m := minsert m k v) ?_
      rw [mget_minsert_ne _ _ hne]
      exact this

theorem mem_mremove_iff {m : List (K × V)} (hm : MapWF m) {k : K} {e : K × V} :
    e ∈ mremove m k ↔ e ∈ m ∧ e.1 ≠ k := by
  constructor
  · intro h
    refine ⟨mem_mremove h, ?_⟩
    intro hk
    obtain ⟨e1, e2⟩ := e
    simp only at hk
    subst hk
    have := mget_eq_some_of_mem (mapwf_mremove hm e1) h
    rw [mget_mremove_self hm] at this
    exact Option.noConfusion this
  · rintro ⟨hmem, hne⟩
    obtain ⟨e1, e2⟩ := e
    have := mget_eq_some_of_mem hm hmem
    refine mem_of_mget_eq_some (m := mremove m k) ?_
    rw [mget_mremove_ne _ hne]
    exact this

theorem map_ext {m m' : List (K × V)} (hm : MapWF m) (hm' : MapWF m')
    (h : ∀ k, mget m k = mget m' k) : m = m' := by
  induction m generalizing m' with
  | nil =>
    cases m' with
    | nil => rfl
    | cons hd tl =>
      obtain ⟨k₀, v₀⟩ := hd
      have := h k₀
      simp [mget] at this
  | cons hd tl ih =>
    obtain ⟨k, v⟩ := hd
    cases m' with
    | nil =>
      have := h k
      simp [mget] at this
    | cons hd' tl' =>
      obtain ⟨k', v'⟩ := hd'
      rw [MapWF, List.pairwise_cons] at hm hm'
      obtain ⟨hlt, htl⟩ := hm
      obtain ⟨hlt', htl'⟩ := hm'
      have hkk' : k = k' := by
        rcases lt_trichotomy k k' with hc | hc | hc
        · exfalso
          have h1 := h k
          simp only [mget, if_pos rfl] at h1
          have h2 : mget tl' k = some v := by
            simpa [mget, ne_of_lt hc] using h1.symm
          exact absurd (hlt' _ (mem_of_mget_eq_some h2)) (lt_asymm hc)
        · exact hc
        · exfalso
          have h1 := h k'
          simp only [mget, if_pos rfl] at h1
          have h2 : mget tl k' = some v' := by
            simpa [mget, ne_of_lt hc] using h1
          exact absurd (hlt _ (mem_of_mget_eq_some h2)) (lt_asymm hc)
      subst hkk'
      have hv : v = v' := by
        have h1 := h k
        simpa [mget] using h1
      subst hv
      have htls : tl = tl' := by
        refine ih htl htl' ?_
        intro k₀
        by_cases hk₀ : k₀ = k
        · subst hk₀
          rw [mget_eq_none_of_forall_lt hlt, mget_eq_none_of_forall_lt hlt']
        · have h1 := h k₀
          simpa [mget, hk₀] using h1
      rw [htls]

end MapLemmas

/-! ## The worker state and its handlers

Direct translation of `RegionCollectionWorker` (lines 148-317 of
`region_collection.rs`). -/

/-- The state of `RegionCollectionWorker` (lines 148-153):
`regions: HashMap<u64, RegionInfo>` and
`region_ranges: BTreeMap<Vec<u8>, u64>`. -/
@[ext]
structure RegionCollectionWorker : Type where
  regions : List (Nat × RegionInfo)
  region_ranges : List (List Nat × Nat)
deriving DecidableEq, Repr

/-- `RegionCollectionWorker::new` (lines 156-161). -/
def RegionCollectionWorker.new : RegionCollectionWorker := ⟨[], []⟩

/-- Both indices of a worker are well-formed maps. -/
def WorkerWF (s : RegionCollectionWorker) : Prop :=
  MapWF s.regions ∧ MapWF s.region_ranges

instance (s : RegionCollectionWorker) : Decidable (WorkerWF s) :=
  inferInstanceAs (Decidable (_ ∧ _))

/-- `handle_update_region` (lines 183-230). -/
def handle_update_region (s : RegionCollectionWorker) (region : Region) :
    RegionCollectionWorker :=
  match mget s.regions region.id with
  | some old_region_info =>
    -- `is_new_region = false` path: maybe drop the stale range entry,
    -- overwrite the region payload keeping role and outdated flag.
    let old_region := old_region_info.region
    let region_ranges :=
      if old_region.end_key = region.end_key then s.region_ranges
      else
        let old_end_key := data_end_key old_region.end_key
        match mget s.region_ranges old_end_key with
        | some old_id =>
          if old_id = region.id then mremove s.region_ranges old_end_key
          else s.region_ranges
        | none => s.region_ranges
    { regions := minsert s.regions region.id
        ⟨region, old_region_info.role, old_region_info.outdated⟩
      region_ranges := minsert region_ranges (data_end_key region.end_key) region.id }
  | none =>
    -- `is_new_region = true` path: insert with Follower role.
    { regions := minsert s.regions region.id ⟨region, StateRole.Follower, false⟩
      region_ranges := minsert s.region_ranges (data_end_key region.end_key) region.id }

/-- `handle_create_region` (lines 163-181). -/
def handle_create_region (s : RegionCollectionWorker) (region : Region) :
    RegionCollectionWorker :=
  if (mget s.regions region.id).isSome then
    handle_update_region s region
  else
    { regions := minsert s.regions region.id ⟨region, StateRole.Follower, false⟩
      region_ranges := minsert s.region_ranges (data_end_key region.end_key) region.id }

/-- `handle_destroy_region` (lines 232-250). -/
def handle_destroy_region (s : RegionCollectionWorker) (region : Region) :
    RegionCollectionWorker :=
  match mget s.regions region.id with
  | some removed_region_info =>
    let end_key := data_end_key removed_region_info.region.end_key
    let region_ranges :=
      match mget s.region_ranges end_key with
      | some id =>
        if id = region.id then mremove s.region_ranges end_key else s.region_ranges
      | none => s.region_ranges
    { regions := mremove s.regions region.id, region_ranges := region_ranges }
  | none => s

/-- `handle_role_change` (lines 252-261).  When the id is unknown a
create is synthesized first; afterwards the id is always present
(`role_change_scrutinee_isSome` below), so the `none` branch of the
final match — a Rust `unwrap` that can never fail — is dead code. -/
def handle_role_change (s : RegionCollectionWorker) (region : Region)
    (new_role : StateRole) : RegionCollectionWorker :=
  let s' :=
    if (mget s.regions region.id).isNone then handle_create_region s region else s
  match mget s'.regions region.id with
  | some info =>
    { s' with regions := minsert s'.regions region.id ⟨info.region, new_role, info.outdated⟩ }
  | none => s'

/-- `SeekRegionResult` from `raftstore::store::msg`.  Modelled from the
spec: the type itself is declared outside the given source; the spec
lists the outcomes `Found(Region)`, `LimitExceeded{next_key}`, `Ended`. -/
inductive SeekRegionResult : Type where
  | Found : Region → SeekRegionResult
  | LimitExceeded : List Nat → SeekRegionResult
  | Ended : SeekRegionResult
deriving DecidableEq, Repr

/-- The loop body of `handle_seek_region` (lines 273-297): scan the
range entries strictly after the seek key in ascending order.  `none`
models the Rust panic of the unchecked index `self.regions[region_id]`
on a dangling entry. -/
def seek_scan (regions : List (Nat × RegionInfo))
    (filter : Region → StateRole → Bool) :
    List (List Nat × Nat) → Nat → Option SeekRegionResult
  | [], _ => some SeekRegionResult.Ended
  | (end_key, region_id) :: rest, limit =>
    match mget regions region_id with
    | none => none
    | some info =>
      if !info.outdated && filter info.region info.role then
        some (SeekRegionResult.Found info.region)
      else
        let limit := limit - 1
        if limit = 0 then
          if DATA_MAX_KEY ≤ end_key then some SeekRegionResult.Ended
          else some (SeekRegionResult.LimitExceeded (origin_key end_key))
        else seek_scan regions filter rest limit

/-- The entries visited by a seek: `region_ranges.range((Excluded(from_key),
Unbounded))` on the sorted map, i.e. the entries whose key is strictly
greater than the encoded seek key, in ascending order. -/
def seek_visited (s : RegionCollectionWorker) (from_key : List Nat) :
    List (List Nat × Nat) :=
  s.region_ranges.filter fun e => decide (data_key from_key < e.1)

/-- `handle_seek_region` (lines 263-299).  `none` models a panic: the
`assert!(limit > 0)` or a dangling range entry. -/
def handle_seek_region (s : RegionCollectionWorker) (from_key : List Nat)
    (filter : Region → StateRole → Bool) (limit : Nat) :
    Option SeekRegionResult :=
  if limit = 0 then none
  else seek_scan s.regions filter (seek_visited s from_key) limit

/-- `RaftStoreEvent` (lines 44-51). -/
inductive RaftStoreEvent : Type where
  | CreateRegion : Region → RaftStoreEvent
  | UpdateRegion : Region → RaftStoreEvent
  | DestroyRegion : Region → RaftStoreEvent
  | RoleChange : Region → StateRole → RaftStoreEvent

/-- `handle_raftstore_event` (lines 301-316). -/
def handle_raftstore_event (s : RegionCollectionWorker) :
    RaftStoreEvent → RegionCollectionWorker
  | RaftStoreEvent.CreateRegion r => handle_create_region s r
  | RaftStoreEvent.UpdateRegion r => handle_update_region s r
  | RaftStoreEvent.DestroyRegion r => handle_destroy_region s r
  | RaftStoreEvent.RoleChange r role => handle_role_change s r role

/-- Applying a sequence of events in channel order (the worker's
`run` loop draining the dispatch channel). -/
def applyEvents (s : RegionCollectionWorker) (evs : List RaftStoreEvent) :
    RegionCollectionWorker :=
  evs.foldl handle_raftstore_event s

/-- A state is reachable when some finite event sequence produces it
from the fresh worker. -/
def Reachable (s : RegionCollectionWorker) : Prop :=
  ∃ evs, s = applyEvents RegionCollectionWorker.new evs

/-! ## Pointwise characterization of the handlers -/

section Characterization

variable {s : RegionCollectionWorker}

theorem mget_update_regions_present {u : Region} {old : RegionInfo}
    (hr : mget s.regions u.id = some old) (k : Nat) :
    mget (handle_update_region s u).regions k =
      if k = u.id then some ⟨u, old.role, old.outdated⟩ else mget s.regions k := by
  simp only [handle_update_region, hr]
  by_cases hk : k = u.id
  · subst hk
    simp [mget_minsert_self]
  · simp [hk, mget_minsert_ne _ _ hk]

theorem mget_update_regions_absent {u : Region}
    (hr : mget s.regions u.id = none) (k : Nat) :
    mget (handle_update_region s u).regions k =
      if k = u.id then some ⟨u, StateRole.Follower, false⟩ else mget s.regions k := by
  simp only [handle_update_region, hr]
  by_cases hk : k = u.id
  · subst hk
    simp [mget_minsert_self]
  · simp [hk, mget_minsert_ne _ _ hk]

theorem mget_update_ranges_present {u : Region} {old : RegionInfo}
    (hr : mget s.regions u.id = some old) (hWF : MapWF s.region_ranges)
    (k : List Nat) :
    mget (handle_update_region s u).region_ranges k =
      if k = data_end_key u.end_key then some u.id
      else if k = data_end_key old.region.end_key ∧ mget s.region_ranges k = some u.id
        then none
        else mget s.region_ranges k := by
  simp only [handle_update_region, hr]
  by_cases hk : k = data_end_key u.end_key
  · subst hk
    simp [mget_minsert_self]
  · rw [if_neg hk]
    by_cases he : old.region.end_key = u.end_key
    · have hne : ¬(k = data_end_key old.region.end_key ∧
          mget s.region_ranges k = some u.id) := by
        rintro ⟨hko, -⟩
        exact hk (by rw [hko, he])
      rw [if_pos he, if_neg hne, mget_minsert_ne _ _ hk]
    · rw [if_neg he]
      by_cases hko : k = data_end_key old.region.end_key
      · subst hko
        cases hg : mget s.region_ranges (data_end_key old.region.end_key) with
        | none => simp [hg, mget_minsert_ne _ _ hk]
        | some oid =>
          by_cases hoid : oid = u.id
          · subst hoid
            simp [hg, mget_minsert_ne _ _ hk, mget_mremove_self hWF]
          · simp [hg, hoid, mget_minsert_ne _ _ hk]
      · have hne : ¬(k = data_end_key old.region.end_key ∧
            mget s.region_ranges k = some u.id) := fun h => hko h.1
        rw [if_neg hne]
        cases hg : mget s.region_ranges (data_end_key old.region.end_key) with
        | none => simp [hg, mget_minsert_ne _ _ hk]
        | some oid =>
          by_cases hoid : oid = u.id
          · simp [hg, hoid, mget_minsert_ne _ _ hk, mget_mremove_ne _ hko]
          · simp [hg, hoid, mget_minsert_ne _ _ hk]

theorem mget_update_ranges_absent {u : Region}
    (hr : mget s.regions u.id = none) (k : List Nat) :
    mget (handle_update_region s u).region_ranges k =
      if k = data_end_key u.end_key then some u.id else mget s.region_ranges k := by
  simp only [handle_update_region, hr]
  by_cases hk : k = data_end_key u.end_key
  · subst hk
    simp [mget_minsert_self]
  · simp [hk, mget_minsert_ne _ _ hk]

theorem create_eq_update_of_present {c : Region}
    (hc : (mget s.regions c.id).isSome) :
    handle_create_region s c = handle_update_region s c := by
  simp [handle_create_region, hc]

theorem mget_create_regions {c : Region}
    (hc : mget s.regions c.id = none) (k : Nat) :
    mget (handle_create_region s c).regions k =
      if k = c.id then some ⟨c, StateRole.Follower, false⟩ else mget s.regions k := by
  simp only [handle_create_region, hc, Option.isSome_none, Bool.false_eq_true, if_false]
  by_cases hk : k = c.id
  · subst hk
    simp [mget_minsert_self]
  · simp [hk, mget_minsert_ne _ _ hk]

theorem mget_create_ranges {c : Region}
    (hc : mget s.regions c.id = none) (k : List Nat) :
    mget (handle_create_region s c).region_ranges k =
      if k = data_end_key c.end_key then some c.id else mget s.region_ranges k := by
  simp only [handle_create_region, hc, Option.isSome_none, Bool.false_eq_true, if_false]
  by_cases hk : k = data_end_key c.end_key
  · subst hk
    simp [mget_minsert_self]
  · simp [hk, mget_minsert_ne _ _ hk]

theorem mget_destroy_regions {d : Region} {old : RegionInfo}
    (hd : mget s.regions d.id = some old) (hWF : MapWF s.regions) (k : Nat) :
    mget (handle_destroy_region s d).regions k =
      if k = d.id then none else mget s.regions k := by
  simp only [handle_destroy_region, hd]
  by_cases hk : k = d.id
  · subst hk
    simp [mget_mremove_self hWF]
  · simp [hk, mget_mremove_ne _ hk]

theorem mget_destroy_ranges {d : Region} {old : RegionInfo}
    (hd : mget s.regions d.id = some old) (hWF : MapWF s.region_ranges)
    (k : List Nat) :
    mget (handle_destroy_region s d).region_ranges k =
      if k = data_end_key old.region.end_key ∧ mget s.region_ranges k = some d.id
        then none
        else mget s.region_ranges k := by
  simp only [handle_destroy_region, hd]
  by_cases hko : k = data_end_key old.region.end_key
  · subst hko
    cases hg : mget s.region_ranges (data_end_key old.region.end_key) with
    | none => simp [hg]
    | some oid =>
      by_cases hoid : oid = d.id
      · subst hoid
        simp [hg, mget_mremove_self hWF]
      · simp [hg, hoid]
  · have hne : ¬(k = data_end_key old.region.end_key ∧
        mget s.region_ranges k = some d.id) := fun h => hko h.1
    rw [if_neg hne]
    cases hg : mget s.region_ranges (data_end_key old.region.end_key) with
    | none => simp [hg]
    | some oid =>
      by_cases hoid : oid = d.id
      · simp [hg, hoid, mget_mremove_ne _ hko]
      · simp [hg, hoid]

theorem destroy_absent {d : Region} (hd : mget s.regions d.id = none) :
    handle_destroy_region s d = s := by
  simp [handle_destroy_region, hd]

theorem role_change_known_ranges {x : Region} {old : RegionInfo} {ρ : StateRole}
    (hx : mget s.regions x.id = some old) :
    (handle_role_change s x ρ).region_ranges = s.region_ranges := by
  simp [handle_role_change, hx]

theorem mget_role_change_known_regions {x : Region} {old : RegionInfo} {ρ : StateRole}
    (hx : mget s.regions x.id = some old) (k : Nat) :
    mget (handle_role_change s x ρ).regions k =
      if k = x.id then some ⟨old.region, ρ, old.outdated⟩ else mget s.regions k := by
  simp only [handle_role_change, hx, Option.isNone_some, Bool.false_eq_true, if_false]
  by_cases hk : k = x.id
  · subst hk
    simp [mget_minsert_self]
  · simp [hk, mget_minsert_ne _ _ hk]

theorem role_change_unknown {x : Region} {ρ : StateRole}
    (hx : mget s.regions x.id = none) :
    handle_role_change s x ρ =
      { regions := minsert (handle_create_region s x).regions x.id ⟨x, ρ, false⟩
        region_ranges := minsert s.region_ranges (data_end_key x.end_key) x.id } := by
  simp [handle_role_change, hx, handle_create_region, mget_minsert_self]

end Characterization

/-! ## Invariants of reachable states -/

section Invariants

variable {s : RegionCollectionWorker}

/-- After the (possibly synthesized) create in `handle_role_change`, the
region id is present, so the Rust `unwrap` there cannot fail. -/
theorem role_change_scrutinee_isSome (s : RegionCollectionWorker) (x : Region) :
    (mget (if (mget s.regions x.id).isNone then handle_create_region s x else s).regions
      x.id).isSome := by
  cases hx : mget s.regions x.id with
  | some old => simp [hx]
  | none => simp [hx, mget_create_regions hx]

theorem workerwf_new : WorkerWF RegionCollectionWorker.new :=
  ⟨List.Pairwise.nil, List.Pairwise.nil⟩

theorem workerwf_update (h : WorkerWF s) (u : Region) :
    WorkerWF (handle_update_region s u) := by
  obtain ⟨h1, h2⟩ := h
  cases hr : mget s.regions u.id with
  | none =>
    simp only [handle_update_region, hr]
    exact ⟨mapwf_minsert h1 _ _, mapwf_minsert h2 _ _⟩
  | some old =>
    simp only [handle_update_region, hr]
    refine ⟨mapwf_minsert h1 _ _, mapwf_minsert ?_ _ _⟩
    repeat' split
    all_goals first
    | exact mapwf_mremove h2 _
    | exact h2

theorem workerwf_create (h : WorkerWF s) (c : Region) :
    WorkerWF (handle_create_region s c) := by
  by_cases hc : (mget s.regions c.id).isSome
  · rw [create_eq_update_of_present hc]
    exact workerwf_update h c
  · simp only [handle_create_region]
    rw [if_neg hc]
    exact ⟨mapwf_minsert h.1 _ _, mapwf_minsert h.2 _ _⟩

theorem workerwf_destroy (h : WorkerWF s) (d : Region) :
    WorkerWF (handle_destroy_region s d) := by
  obtain ⟨h1, h2⟩ := h
  cases hr : mget s.regions d.id with
  | none =>
    rw [destroy_absent hr]
    exact ⟨h1, h2⟩
  | some old =>
    simp only [handle_destroy_region, hr]
    refine ⟨mapwf_mremove h1 _, ?_⟩
    repeat' split
    all_goals first
    | exact mapwf_mremove h2 _
    | exact h2

theorem workerwf_role_change (h : WorkerWF s) (x : Region) (ρ : StateRole) :
    WorkerWF (handle_role_change s x ρ) := by
  cases hx : mget s.regions x.id with
  | some old =>
    simp only [handle_role_change, hx, Option.isNone_some, Bool.false_eq_true, if_false]
    exact ⟨mapwf_minsert h.1 _ _, h.2⟩
  | none =>
    rw [role_change_unknown hx]
    exact ⟨mapwf_minsert (workerwf_create h x).1 _ _, mapwf_minsert h.2 _ _⟩

theorem workerwf_event (h : WorkerWF s) (e : RaftStoreEvent) :
    WorkerWF (handle_raftstore_event s e) := by
  cases e with
  | CreateRegion r => exact workerwf_create h r
  | UpdateRegion r => exact workerwf_update h r
  | DestroyRegion r => exact workerwf_destroy h r
  | RoleChange r ρ => exact workerwf_role_change h r ρ

theorem workerwf_applyEvents (h : WorkerWF s) (evs : List RaftStoreEvent) :
    WorkerWF (applyEvents s evs) := by
  induction evs generalizing s with
  | nil => exact h
  | cons e rest ih => exact ih (workerwf_event h e)

theorem workerwf_reachable (h : Reachable s) : WorkerWF s := by
  obtain ⟨evs, rfl⟩ := h
  exact workerwf_applyEvents workerwf_new evs

/-- The key invariant (spec §3, I1/I2): every entry of `region_ranges`
names an id that is present in `regions` and whose current end key
encodes to exactly the entry's key. -/
def RangesCoherent (s : RegionCollectionWorker) : Prop :=
  ∀ e ∈ s.region_ranges,
    ∃ info, mget s.regions e.2 = some info ∧ data_end_key info.region.end_key = e.1

theorem coherent_update (hWF : WorkerWF s) (hco : RangesCoherent s) (u : Region) :
    RangesCoherent (handle_update_region s u) := by
  intro e he
  have hWF' := workerwf_update hWF u
  have hm : mget (handle_update_region s u).region_ranges e.1 = some e.2 := by
    obtain ⟨e1, e2⟩ := e
    exact mget_eq_some_of_mem hWF'.2 he
  cases hr : mget s.regions u.id with
  | some old =>
    rw [mget_update_ranges_present hr hWF.2] at hm
    by_cases hk : e.1 = data_end_key u.end_key
    · rw [if_pos hk] at hm
      refine ⟨⟨u, old.role, old.outdated⟩, ?_, ?_⟩
      · rw [mget_update_regions_present hr, if_pos (Option.some.inj hm).symm]
      · rw [hk]
    · rw [if_neg hk] at hm
      by_cases hcond : e.1 = data_end_key old.region.end_key ∧
          mget s.region_ranges e.1 = some u.id
      · rw [if_pos hcond] at hm
        exact Option.noConfusion hm
      · rw [if_neg hcond] at hm
        obtain ⟨info₀, hinfo, henc⟩ := hco (e.1, e.2) (mem_of_mget_eq_some hm)
        have hne : e.2 ≠ u.id := by
          intro h2
          rw [h2, hr] at hinfo
          obtain rfl : old = info₀ := Option.some.inj hinfo
          rw [h2] at hm
          exact hcond ⟨henc.symm, hm⟩
        refine ⟨info₀, ?_, henc⟩
        rw [mget_update_regions_present hr, if_neg hne]
        exact hinfo
  | none =>
    rw [mget_update_ranges_absent hr] at hm
    by_cases hk : e.1 = data_end_key u.end_key
    · rw [if_pos hk] at hm
      refine ⟨⟨u, StateRole.Follower, false⟩, ?_, ?_⟩
      · rw [mget_update_regions_absent hr, if_pos (Option.some.inj hm).symm]
      · rw [hk]
    · rw [if_neg hk] at hm
      obtain ⟨info₀, hinfo, henc⟩ := hco (e.1, e.2) (mem_of_mget_eq_some hm)
      have hne : e.2 ≠ u.id := by
        intro h2
        rw [h2, hr] at hinfo
        exact Option.noConfusion hinfo
      refine ⟨info₀, ?_, henc⟩
      rw [mget_update_regions_absent hr, if_neg hne]
      exact hinfo

theorem coherent_create (hWF : WorkerWF s) (hco : RangesCoherent s) (c : Region) :
    RangesCoherent (handle_create_region s c) := by
  by_cases hc : (mget s.regions c.id).isSome
  · rw [create_eq_update_of_present hc]
    exact coherent_update hWF hco c
  · rw [Option.not_isSome_iff_eq_none] at hc
    intro e he
    have hWF' := workerwf_create hWF c
    have hm : mget (handle_create_region s c).region_ranges e.1 = some e.2 := by
      obtain ⟨e1, e2⟩ := e
      exact mget_eq_some_of_mem hWF'.2 he
    rw [mget_create_ranges hc] at hm
    by_cases hk : e.1 = data_end_key c.end_key
    · rw [if_pos hk] at hm
      refine ⟨⟨c, StateRole.Follower, false⟩, ?_, ?_⟩
      · rw [mget_create_regions hc, if_pos (Option.some.inj hm).symm]
      · rw [hk]
    · rw [if_neg hk] at hm
      obtain ⟨info₀, hinfo, henc⟩ := hco (e.1, e.2) (mem_of_mget_eq_some hm)
      have hne : e.2 ≠ c.id := by
        intro h2
        rw [h2, hc] at hinfo
        exact Option.noConfusion hinfo
      refine ⟨info₀, ?_, henc⟩
      rw [mget_create_regions hc, if_neg hne]
      exact hinfo

theorem coherent_destroy (hWF : WorkerWF s) (hco : RangesCoherent s) (d : Region) :
    RangesCoherent (handle_destroy_region s d) := by
  cases hr : mget s.regions d.id with
  | none =>
    rw [destroy_absent hr]
    exact hco
  | some old =>
    intro e he
    have hWF' := workerwf_destroy hWF d
    have hm : mget (handle_destroy_region s d).region_ranges e.1 = some e.2 := by
      obtain ⟨e1, e2⟩ := e
      exact mget_eq_some_of_mem hWF'.2 he
    rw [mget_destroy_ranges hr hWF.2] at hm
    by_cases hcond : e.1 = data_end_key old.region.end_key ∧
        mget s.region_ranges e.1 = some d.id
    · rw [if_pos hcond] at hm
      exact Option.noConfusion hm
    · rw [if_neg hcond] at hm
      obtain ⟨info₀, hinfo, henc⟩ := hco (e.1, e.2) (mem_of_mget_eq_some hm)
      have hne : e.2 ≠ d.id := by
        intro h2
        rw [h2, hr] at hinfo
        obtain rfl : old = info₀ := Option.some.inj hinfo
        rw [h2] at hm
        exact hcond ⟨henc.symm, hm⟩
      refine ⟨info₀, ?_, henc⟩
      rw [mget_destroy_regions hr hWF.1, if_neg hne]
      exact hinfo

theorem coherent_role_change (hWF : WorkerWF s) (hco : RangesCoherent s)
    (x : Region) (ρ : StateRole) :
    RangesCoherent (handle_role_change s x ρ) := by
  cases hx : mget s.regions x.id with
  | some old =>
    intro e he
    rw [role_change_known_ranges hx] at he
    obtain ⟨info₀, hinfo, henc⟩ := hco e he
    by_cases hne : e.2 = x.id
    · refine ⟨⟨old.region, ρ, old.outdated⟩, ?_, ?_⟩
      · rw [mget_role_change_known_regions hx, if_pos hne]
      · rw [hne] at hinfo
        rw [hx] at hinfo
        obtain rfl : old = info₀ := Option.some.inj hinfo
        exact henc
    · refine ⟨info₀, ?_, henc⟩
      rw [mget_role_change_known_regions hx, if_neg hne]
      exact hinfo
  | none =>
    intro e he
    rw [role_change_unknown hx] at he
    simp only at he
    have hWFr : MapWF (minsert s.region_ranges (data_end_key x.end_key) x.id) :=
      mapwf_minsert hWF.2 _ _
    have hm : mget (minsert s.region_ranges (data_end_key x.end_key) x.id) e.1 =
        some e.2 := by
      obtain ⟨e1, e2⟩ := e
      exact mget_eq_some_of_mem hWFr he
    by_cases hk : e.1 = data_end_key x.end_key
    · rw [hk, mget_minsert_self] at hm
      refine ⟨⟨x, ρ, false⟩, ?_, ?_⟩
      · rw [role_change_unknown hx]
        simp only
        rw [(Option.some.inj hm).symm, mget_minsert_self]
      · rw [hk]
    · rw [mget_minsert_ne _ _ hk] at hm
      obtain ⟨info₀, hinfo, henc⟩ := hco (e.1, e.2) (mem_of_mget_eq_some hm)
      have hne : e.2 ≠ x.id := by
        intro h2
        rw [h2, hx] at hinfo
        exact Option.noConfusion hinfo
      refine ⟨info₀, ?_, henc⟩
      rw [role_change_unknown hx]
      simp only
      rw [mget_minsert_ne _ _ hne, mget_create_regions hx, if_neg hne]
      exact hinfo

theorem coherent_event (hWF : WorkerWF s) (hco : RangesCoherent s)
    (e : RaftStoreEvent) : RangesCoherent (handle_raftstore_event s e) := by
  cases e with
  | CreateRegion r => exact coherent_create hWF hco r
  | UpdateRegion r => exact coherent_update hWF hco r
  | DestroyRegion r => exact coherent_destroy hWF hco r
  | RoleChange r ρ => exact coherent_role_change hWF hco r ρ

theorem coherent_reachable (h : Reachable s) : RangesCoherent s := by
  obtain ⟨evs, rfl⟩ := h
  have : ∀ (t : RegionCollectionWorker), WorkerWF t → RangesCoherent t →
      RangesCoherent (applyEvents t evs) := by
    induction evs with
    | nil => exact fun t _ hco => hco
    | cons e rest ih =>
      exact fun t hWF hco => ih _ (workerwf_event hWF e) (coherent_event hWF hco e)
  exact this RegionCollectionWorker.new workerwf_new (fun e he => absurd he (by simp [RegionCollectionWorker.new]))

end Invariants

/-! ## Behaviour of the seek scan -/

section Seek

variable {regions : List (Nat × RegionInfo)} {filter : Region → StateRole → Bool}
variable {ek : List Nat} {rid : Nat} {rest : List (List Nat × Nat)} {limit : Nat}
variable {info : RegionInfo}

theorem seek_scan_cons_pass (h : mget regions rid = some info)
    (hp : (!info.outdated && filter info.region info.role) = true) :
    seek_scan regions filter ((ek, rid) :: rest) limit =
      some (SeekRegionResult.Found info.region) := by
  rw [seek_scan, h]
  simp [hp]

theorem seek_scan_cons_fail (h : mget regions rid = some info)
    (hp : (!info.outdated && filter info.region info.role) = false) :
    seek_scan regions filter ((ek, rid) :: rest) limit =
      if limit - 1 = 0 then
        if DATA_MAX_KEY ≤ ek then some SeekRegionResult.Ended
        else some (SeekRegionResult.LimitExceeded (origin_key ek))
      else seek_scan regions filter rest (limit - 1) := by
  rw [seek_scan, h]
  simp [hp]

theorem seek_scan_isSome :
    ∀ (entries : List (List Nat × Nat)) (limit : Nat), limit ≠ 0 →
      (∀ e ∈ entries, (mget regions e.2).isSome) →
      (seek_scan regions filter entries limit).isSome := by
  intro entries
  induction entries with
  | nil => intro limit _ _; simp [seek_scan]
  | cons hd rest ih =>
    intro limit hlim hcov
    obtain ⟨ek, rid⟩ := hd
    obtain ⟨info, hinfo⟩ := Option.isSome_iff_exists.mp (hcov (ek, rid) (by simp))
    by_cases hp : (!info.outdated && filter info.region info.role) = true
    · rw [seek_scan_cons_pass hinfo hp]
      rfl
    · rw [Bool.not_eq_true] at hp
      rw [seek_scan_cons_fail hinfo hp]
      by_cases hl : limit - 1 = 0
      · rw [if_pos hl]
        by_cases hek : DATA_MAX_KEY ≤ ek
        · rw [if_pos hek]
          rfl
        · rw [if_neg hek]
          rfl
      · rw [if_neg hl]
        exact ih (limit - 1) hl fun e he => hcov e (List.mem_cons_of_mem _ he)

theorem seek_scan_found :
    ∀ (entries : List (List Nat × Nat)) (limit i : Nat) (hi : i < entries.length)
      {info : RegionInfo},
      i < limit →
      (∀ j (hj : j < i), ∃ infoj,
        mget regions (entries.get ⟨j, lt_trans hj hi⟩).2 = some infoj ∧
          (!infoj.outdated && filter infoj.region infoj.role) = false) →
      mget regions (entries.get ⟨i, hi⟩).2 = some info →
      (!info.outdated && filter info.region info.role) = true →
      seek_scan regions filter entries limit = some (SeekRegionResult.Found info.region) := by
  intro entries
  induction entries with
  | nil => intro limit i hi; exact absurd hi (by simp)
  | cons hd rest ih =>
    intro limit i hi info hlim hfail hinfo hpass
    obtain ⟨ek, rid⟩ := hd
    cases i with
    | zero =>
      simp only [List.get] at hinfo
      rw [seek_scan_cons_pass hinfo hpass]
    | succ i' =>
      obtain ⟨info0, hinfo0, hfail0⟩ := hfail 0 (Nat.succ_pos i')
      simp only [List.get] at hinfo0
      rw [seek_scan_cons_fail hinfo0 hfail0]
      have hl1 : limit - 1 ≠ 0 := by omega
      rw [if_neg hl1]
      refine ih (limit - 1) i' (by simpa using hi) (by omega) ?_ ?_ hpass
      · intro j hj
        obtain ⟨infoj, h1, h2⟩ := hfail (j + 1) (Nat.succ_lt_succ hj)
        simp only [List.get] at h1
        exact ⟨infoj, h1, h2⟩
      · simpa only [List.get] using hinfo

theorem seek_scan_all_fail :
    ∀ (entries : List (List Nat × Nat)) (limit : Nat) (hlim : 0 < limit),
      (∀ j (hj : j < entries.length), j < limit → ∃ infoj,
        mget regions (entries.get ⟨j, hj⟩).2 = some infoj ∧
          (!infoj.outdated && filter infoj.region infoj.role) = false) →
      (∀ e ∈ entries, (DATA_MAX_KEY ≤ e.1 ↔ e.1 = DATA_MAX_KEY)) →
      ((hlen : limit ≤ entries.length) →
        seek_scan regions filter entries limit =
          some (if (entries.get ⟨limit - 1, by omega⟩).1 = DATA_MAX_KEY
            then SeekRegionResult.Ended
            else SeekRegionResult.LimitExceeded
              (origin_key (entries.get ⟨limit - 1, by omega⟩).1))) ∧
      (entries.length < limit → seek_scan regions filter entries limit = some SeekRegionResult.Ended) := by
  intro entries
  induction entries with
  | nil =>
    intro limit hlim _ _
    refine ⟨fun hlen => absurd hlen ?_, fun _ => by simp [seek_scan]⟩
    simp only [List.length_nil, Nat.le_zero]
    omega
  | cons hd rest ih =>
    intro limit hlim hfail hmax
    obtain ⟨ek, rid⟩ := hd
    obtain ⟨info0, hinfo0, hfail0⟩ := hfail 0 (by simp) hlim
    simp only [List.get] at hinfo0
    constructor
    · intro hlen
      rw [seek_scan_cons_fail hinfo0 hfail0]
      by_cases hl1 : limit - 1 = 0
      · rw [if_pos hl1]
        have hlimit1 : limit = 1 := by omega
        subst hlimit1
        simp only [List.get]
        have hiff := hmax (ek, rid) (by simp)
        by_cases hek : ek = DATA_MAX_KEY
        · rw [if_pos (hiff.mpr hek), if_pos hek]
        · rw [if_neg (fun hle => hek (hiff.mp hle)), if_neg hek]
      · rw [if_neg hl1]
        obtain ⟨m, rfl⟩ : ∃ m, limit = m + 2 := ⟨limit - 2, by omega⟩
        obtain ⟨p1, p2⟩ := ih (m + 1) (by omega)
          (fun j hj hjl => by
            obtain ⟨infoj, h1, h2⟩ := hfail (j + 1) (by simpa using Nat.succ_lt_succ hj) (by omega)
            simp only [List.get] at h1
            exact ⟨infoj, h1, h2⟩)
          (fun e he => hmax e (List.mem_cons_of_mem _ he))
        have hlen' : m + 1 ≤ rest.length := by
          simp only [List.length_cons] at hlen
          omega
        exact p1 hlen'
    · intro hlen
      rw [seek_scan_cons_fail hinfo0 hfail0]
      have hl1 : limit - 1 ≠ 0 := by
        simp only [List.length_cons] at hlen
        omega
      rw [if_neg hl1]
      obtain ⟨-, p2⟩ := ih (limit - 1) (by omega)
        (fun j hj hjl => by
          obtain ⟨infoj, h1, h2⟩ := hfail (j + 1) (by simpa using Nat.succ_lt_succ hj) (by omega)
          simp only [List.get] at h1
          exact ⟨infoj, h1, h2⟩)
        (fun e he => hmax e (List.mem_cons_of_mem _ he))
      refine p2 ?_
      simp only [List.length_cons] at hlen
      omega

end Seek

/-! ## Commutation of handlers

The heart of the convergence properties: on well-formed states the
handlers participating in a split or a merge commute. -/

section Commutation

variable {s : RegionCollectionWorker}

/-- Two well-formed workers with the same observations are equal. -/
theorem worker_ext {s t : RegionCollectionWorker} (hs : WorkerWF s) (ht : WorkerWF t)
    (h1 : ∀ k, mget s.regions k = mget t.regions k)
    (h2 : ∀ k, mget s.region_ranges k = mget t.region_ranges k) : s = t :=
  RegionCollectionWorker.ext (map_ext hs.1 ht.1 h1) (map_ext hs.2 ht.2 h2)

theorem update_create_comm {u c : Region} {old : RegionInfo}
    (hWF : WorkerWF s) (hu : mget s.regions u.id = some old)
    (hc : mget s.regions c.id = none) (hend : u.end_key ≠ c.end_key) :
    handle_create_region (handle_update_region s u) c =
      handle_update_region (handle_create_region s c) u := by
  have hid : c.id ≠ u.id := fun h => by
    rw [h, hu] at hc
    exact Option.noConfusion hc
  have hencne : data_end_key u.end_key ≠ data_end_key c.end_key :=
    fun h => hend (data_end_key_injective h)
  have hc' : mget (handle_update_region s u).regions c.id = none := by
    rw [mget_update_regions_present hu, if_neg hid]
    exact hc
  have hu' : mget (handle_create_region s c).regions u.id = some old := by
    rw [mget_create_regions hc, if_neg (Ne.symm hid)]
    exact hu
  have hWFu := workerwf_update hWF u
  have hWFc := workerwf_create hWF c
  refine worker_ext (workerwf_create hWFu c) (workerwf_update hWFc u) ?_ ?_
  · intro k
    rw [mget_create_regions hc', mget_update_regions_present hu,
      mget_update_regions_present hu', mget_create_regions hc]
    by_cases h1 : k = c.id
    · rw [if_pos h1, if_neg (fun h2 : k = u.id => hid (h1 ▸ h2 ▸ rfl)), if_pos h1]
    · rw [if_neg h1]
      by_cases h2 : k = u.id
      · rw [if_pos h2, if_pos h2]
      · rw [if_neg h2, if_neg h2, if_neg h1]
  · intro k
    rw [mget_create_ranges hc', mget_update_ranges_present hu hWF.2,
      mget_update_ranges_present hu' hWFc.2, mget_create_ranges hc]
    by_cases h1 : k = data_end_key c.end_key
    · rw [if_pos h1, if_neg (fun h2 : k = data_end_key u.end_key => hencne (h2.symm.trans h1))]
      have hcond : ¬(k = data_end_key old.region.end_key ∧
          (if k = data_end_key c.end_key then some c.id else mget s.region_ranges k)
            = some u.id) := by
        rintro ⟨-, hq⟩
        rw [if_pos h1] at hq
        exact hid (Option.some.inj hq)
      rw [if_neg hcond, if_pos h1]
    · rw [if_neg h1]
      by_cases h2 : k = data_end_key u.end_key
      · rw [if_pos h2, if_pos h2]
      · rw [if_neg h2, if_neg h2]
        by_cases h3 : k = data_end_key old.region.end_key ∧
            mget s.region_ranges k = some u.id
        · rw [if_pos h3]
          have h3' : k = data_end_key old.region.end_key ∧
              (if k = data_end_key c.end_key then some c.id else mget s.region_ranges k)
                = some u.id := by
            refine ⟨h3.1, ?_⟩
            rw [if_neg h1]
            exact h3.2
          rw [if_pos h3']
        · rw [if_neg h3]
          have h3' : ¬(k = data_end_key old.region.end_key ∧
              (if k = data_end_key c.end_key then some c.id else mget s.region_ranges k)
                = some u.id) := by
            rintro ⟨ha, hb⟩
            rw [if_neg h1] at hb
            exact h3 ⟨ha, hb⟩
          rw [if_neg h3', if_neg h1]

theorem create_create_comm {c1 c2 : Region}
    (hWF : WorkerWF s) (h1 : mget s.regions c1.id = none)
    (h2 : mget s.regions c2.id = none) (hid : c1.id ≠ c2.id)
    (hend : c1.end_key ≠ c2.end_key) :
    handle_create_region (handle_create_region s c1) c2 =
      handle_create_region (handle_create_region s c2) c1 := by
  have hencne : data_end_key c1.end_key ≠ data_end_key c2.end_key :=
    fun h => hend (data_end_key_injective h)
  have h2' : mget (handle_create_region s c1).regions c2.id = none := by
    rw [mget_create_regions h1, if_neg (Ne.symm hid)]
    exact h2
  have h1' : mget (handle_create_region s c2).regions c1.id = none := by
    rw [mget_create_regions h2, if_neg hid]
    exact h1
  have hWF1 := workerwf_create hWF c1
  have hWF2 := workerwf_create hWF c2
  refine worker_ext (workerwf_create hWF1 c2) (workerwf_create hWF2 c1) ?_ ?_
  · intro k
    rw [mget_create_regions h2', mget_create_regions h1,
      mget_create_regions h1', mget_create_regions h2]
    by_cases hk1 : k = c1.id
    · rw [if_neg (fun hk2 : k = c2.id => hid (hk1 ▸ hk2 ▸ rfl)), if_pos hk1, if_pos hk1]
    · rw [if_neg hk1, if_neg hk1]
  · intro k
    rw [mget_create_ranges h2', mget_create_ranges h1,
      mget_create_ranges h1', mget_create_ranges h2]
    by_cases hk1 : k = data_end_key c1.end_key
    · rw [if_neg (fun hk2 : k = data_end_key c2.end_key => hencne (hk1.symm.trans hk2)),
        if_pos hk1, if_pos hk1]
    · rw [if_neg hk1, if_neg hk1]

theorem update_destroy_comm {u d : Region} {iu idd : RegionInfo}
    (hWF : WorkerWF s) (hu : mget s.regions u.id = some iu)
    (hd : mget s.regions d.id = some idd) (hid : u.id ≠ d.id) :
    handle_destroy_region (handle_update_region s u) d =
      handle_update_region (handle_destroy_region s d) u := by
  have hd' : mget (handle_update_region s u).regions d.id = some idd := by
    rw [mget_update_regions_present hu, if_neg (Ne.symm hid)]
    exact hd
  have hu' : mget (handle_destroy_region s d).regions u.id = some iu := by
    rw [mget_destroy_regions hd hWF.1, if_neg hid]
    exact hu
  have hWFu := workerwf_update hWF u
  have hWFd := workerwf_destroy hWF d
  refine worker_ext (workerwf_destroy hWFu d) (workerwf_update hWFd u) ?_ ?_
  · intro k
    rw [mget_destroy_regions hd' hWFu.1, mget_update_regions_present hu,
      mget_update_regions_present hu', mget_destroy_regions hd hWF.1]
    by_cases h1 : k = d.id
    · rw [if_pos h1, if_neg (fun h2 : k = u.id => hid (h2 ▸ h1 ▸ rfl)), if_pos h1]
    · rw [if_neg h1]
      by_cases h2 : k = u.id
      · rw [if_pos h2, if_pos h2]
      · rw [if_neg h2, if_neg h2, if_neg h1]
  · intro k
    rw [mget_destroy_ranges hd' hWFu.2, mget_update_ranges_present hu hWF.2,
      mget_update_ranges_present hu' hWFd.2, mget_destroy_ranges hd hWF.2]
    by_cases h2 : k = data_end_key u.end_key
    · rw [if_pos h2, if_pos h2]
      have hcond : ¬(k = data_end_key idd.region.end_key ∧
          (some u.id : Option Nat) = some d.id) := by
        rintro ⟨-, hq⟩
        exact hid (Option.some.inj hq)
      rw [if_neg hcond]
    · rw [if_neg h2, if_neg h2]
      by_cases h3 : k = data_end_key iu.region.end_key ∧
          mget s.region_ranges k = some u.id
      · rw [if_pos h3]
        have hD : ¬(k = data_end_key idd.region.end_key ∧
            mget s.region_ranges k = some d.id) := by
          rintro ⟨-, hq⟩
          rw [h3.2] at hq
          exact hid (Option.some.inj hq)
        rw [if_neg hD, if_pos h3]
        have hnone : ¬(k = data_end_key idd.region.end_key ∧
            (none : Option Nat) = some d.id) := by
          rintro ⟨-, hq⟩
          exact Option.noConfusion hq
        rw [if_neg hnone]
      · rw [if_neg h3]
        by_cases h4 : k = data_end_key idd.region.end_key ∧
            mget s.region_ranges k = some d.id
        · rw [if_pos h4]
          have hcond : ¬(k = data_end_key iu.region.end_key ∧
              (none : Option Nat) = some u.id) := by
            rintro ⟨-, hq⟩
            exact Option.noConfusion hq
          rw [if_neg hcond]
        · rw [if_neg h4, if_neg h3]

end Commutation

/-! ## Concrete workers used by the witnesses -/

/-- Two adjacent regions: 1 owns `[, "a")`, 2 owns `["a", "b")`. -/
def wTwo : RegionCollectionWorker :=
  ⟨[(1, ⟨⟨1, [], [97]⟩, StateRole.Follower, false⟩),
    (2, ⟨⟨2, [97], [98]⟩, StateRole.Follower, false⟩)],
   [([122, 97], 1), ([122, 98], 2)]⟩

/-- One region 2 owning `["k1", "k9")`, about to be split. -/
def wSplit : RegionCollectionWorker :=
  ⟨[(2, ⟨⟨2, [107, 49], [107, 57]⟩, StateRole.Follower, false⟩)],
   [([122, 107, 57], 2)]⟩

/-- A worker reached by two concrete events from the fresh state. -/
def wReach : RegionCollectionWorker :=
  applyEvents RegionCollectionWorker.new
    [RaftStoreEvent.CreateRegion ⟨1, [], [97]⟩,
     RaftStoreEvent.RoleChange ⟨2, [97], []⟩ StateRole.Leader]

/-! ## The claims -/

/-- C3: for every store state and every update event on a known id whose
end key differs from the stored region's end key, `handle_update_region`
removes the `region_ranges` entry at the old end key's encoding only if
it still maps to this id (another region's claim on the same boundary is
never removed), overwrites `regions[id].region` with the new payload
while leaving `regions[id].role` unchanged, and always inserts
`region_ranges[encode(new end key)] = id`. -/
theorem C3_update_known_id_end_changed (s : RegionCollectionWorker)
    (u : Region) (old : RegionInfo)
    (hWF : MapWF s.region_ranges)
    (hu : mget s.regions u.id = some old)
    (hne : old.region.end_key ≠ u.end_key) :
    (mget s.region_ranges (data_end_key old.region.end_key) = some u.id →
      mget (handle_update_region s u).region_ranges
        (data_end_key old.region.end_key) = none) ∧
    (∀ j, j ≠ u.id → mget s.region_ranges (data_end_key old.region.end_key) = some j →
      mget (handle_update_region s u).region_ranges
        (data_end_key old.region.end_key) = some j) ∧
    mget (handle_update_region s u).regions u.id = some ⟨u, old.role, old.outdated⟩ ∧
    mget (handle_update_region s u).region_ranges (data_end_key u.end_key) = some u.id := by
  have hkne : data_end_key old.region.end_key ≠ data_end_key u.end_key :=
    fun h => hne (data_end_key_injective h)
  refine ⟨?_, ?_, ?_, ?_⟩
  · intro hpt
    rw [mget_update_ranges_present hu hWF, if_neg hkne, if_pos ⟨rfl, hpt⟩]
  · intro j hj hpt
    rw [mget_update_ranges_present hu hWF, if_neg hkne]
    have hcond : ¬(data_end_key old.region.end_key = data_end_key old.region.end_key ∧
        mget s.region_ranges (data_end_key old.region.end_key) = some u.id) := by
      rintro ⟨-, hq⟩
      rw [hpt] at hq
      exact hj (Option.some.inj hq)
    rw [if_neg hcond]
    exact hpt
  · rw [mget_update_regions_present hu, if_pos rfl]
  · rw [mget_update_ranges_present hu hWF, if_pos rfl]

theorem C3_witness :
    (MapWF wTwo.region_ranges ∧
      mget wTwo.regions 1 = some ⟨⟨1, [], [97]⟩, StateRole.Follower, false⟩ ∧
      ([97] : List Nat) ≠ [99]) ∧
    mget (handle_update_region wTwo ⟨1, [], [99]⟩).region_ranges [122, 97] = none ∧
    mget (handle_update_region wTwo ⟨1, [], [99]⟩).regions 1 =
      some ⟨⟨1, [], [99]⟩, StateRole.Follower, false⟩ ∧
    mget (handle_update_region wTwo ⟨1, [], [99]⟩).region_ranges [122, 99] = some 1 := by
  have h := C3_update_known_id_end_changed wTwo ⟨1, [], [99]⟩
    ⟨⟨1, [], [97]⟩, StateRole.Follower, false⟩ (by decide) (by decide) (by decide)
  exact ⟨⟨by decide, by decide, by decide⟩, h.1 (by decide), h.2.2.1, h.2.2.2⟩

/-- C4: for every store state and every destroy event: if the event's id
is present, `handle_destroy_region` removes that id from `regions` and
removes the `region_ranges` entry at the stored (last known) end key of
that region only if the entry still maps to this id; if the id is
absent, both indices are left completely unchanged (a no-op, never an
error). -/
theorem C4_destroy (s : RegionCollectionWorker) (d : Region)
    (hWFr : MapWF s.regions) (hWFg : MapWF s.region_ranges) :
    (∀ old, mget s.regions d.id = some old →
      mget (handle_destroy_region s d).regions d.id = none ∧
      (∀ j, j ≠ d.id →
        mget (handle_destroy_region s d).regions j = mget s.regions j) ∧
      (mget s.region_ranges (data_end_key old.region.end_key) = some d.id →
        mget (handle_destroy_region s d).region_ranges
          (data_end_key old.region.end_key) = none) ∧
      (∀ j, j ≠ d.id →
        mget s.region_ranges (data_end_key old.region.end_key) = some j →
        (handle_destroy_region s d).region_ranges = s.region_ranges) ∧
      (mget s.region_ranges (data_end_key old.region.end_key) = none →
        (handle_destroy_region s d).region_ranges = s.region_ranges)) ∧
    (mget s.regions d.id = none → handle_destroy_region s d = s) := by
  constructor
  · intro old hd
    refine ⟨?_, ?_, ?_, ?_, ?_⟩
    · rw [mget_destroy_regions hd hWFr, if_pos rfl]
    · intro j hj
      rw [mget_destroy_regions hd hWFr, if_neg hj]
    · intro hpt
      rw [mget_destroy_ranges hd hWFg, if_pos ⟨rfl, hpt⟩]
    · intro j hj hpt
      simp only [handle_destroy_region, hd, hpt]
      rw [if_neg (fun h => hj h)]
    · intro hpt
      simp only [handle_destroy_region, hd, hpt]
  · exact destroy_absent

theorem C4_witness :
    (MapWF wTwo.regions ∧ MapWF wTwo.region_ranges ∧
      mget wTwo.regions 2 = some ⟨⟨2, [97], [98]⟩, StateRole.Follower, false⟩ ∧
      mget wTwo.regions 9 = none) ∧
    mget (handle_destroy_region wTwo ⟨2, [], []⟩).regions 2 = none ∧
    mget (handle_destroy_region wTwo ⟨2, [], []⟩).region_ranges [122, 98] = none ∧
    handle_destroy_region wTwo ⟨9, [], []⟩ = wTwo := by
  have h := (C4_destroy wTwo ⟨2, [], []⟩ (by decide) (by decide)).1
    ⟨⟨2, [97], [98]⟩, StateRole.Follower, false⟩ (by decide)
  have h9 := (C4_destroy wTwo ⟨9, [], []⟩ (by decide) (by decide)).2 (by decide)
  exact ⟨⟨by decide, by decide, by decide, by decide⟩, h.1, h.2.2.1 (by decide), h9⟩

/-- C7 counterexample: the claim says a role-change event never alters
any `region_ranges` entry, but on an unknown id the handler synthesizes
a create, which here overwrites the range entry at the encoded end key
`"a"` (it pointed to region 2, and afterwards points to region 1). -/
theorem C7_counterexample :
    (handle_role_change
        ⟨[(2, ⟨⟨2, [], [97]⟩, StateRole.Follower, false⟩)], [([122, 97], 2)]⟩
        ⟨1, [], [97]⟩ StateRole.Leader).region_ranges ≠
      (⟨[(2, ⟨⟨2, [], [97]⟩, StateRole.Follower, false⟩)], [([122, 97], 2)]⟩ :
        RegionCollectionWorker).region_ranges := by
  decide

/-- C7 (amended): when the role-change id X is known, the handler only
sets `regions[X].role` in place: no `Region` payload changes, no other
id's entry changes and no `region_ranges` entry changes.  When X is
unknown, the handler first synthesizes a create — inserting a
`RegionInfo` for X and upserting the `region_ranges` entry at X's
encoded end key — and then sets X's role. -/
theorem C7_role_isolation_amended (s : RegionCollectionWorker)
    (x : Region) (ρ : StateRole) :
    (∀ old, mget s.regions x.id = some old →
      (handle_role_change s x ρ).region_ranges = s.region_ranges ∧
      mget (handle_role_change s x ρ).regions x.id =
        some ⟨old.region, ρ, old.outdated⟩ ∧
      (∀ j, j ≠ x.id →
        mget (handle_role_change s x ρ).regions j = mget s.regions j)) ∧
    (mget s.regions x.id = none →
      mget (handle_role_change s x ρ).regions x.id = some ⟨x, ρ, false⟩ ∧
      (handle_role_change s x ρ).region_ranges =
        minsert s.region_ranges (data_end_key x.end_key) x.id ∧
      (∀ j, j ≠ x.id →
        mget (handle_role_change s x ρ).regions j = mget s.regions j)) := by
  constructor
  · intro old hx
    refine ⟨role_change_known_ranges hx, ?_, ?_⟩
    · rw [mget_role_change_known_regions hx, if_pos rfl]
    · intro j hj
      rw [mget_role_change_known_regions hx, if_neg hj]
  · intro hx
    rw [role_change_unknown hx]
    refine ⟨?_, rfl, ?_⟩
    · exact mget_minsert_self _ _ _
    · intro j hj
      show mget (minsert (handle_create_region s x).regions x.id ⟨x, ρ, false⟩) j =
        mget s.regions j
      rw [mget_minsert_ne _ _ hj, mget_create_regions hx, if_neg hj]

theorem C7_witness :
    (mget wTwo.regions 1 = some ⟨⟨1, [], [97]⟩, StateRole.Follower, false⟩) ∧
    (handle_role_change wTwo ⟨1, [], [97]⟩ StateRole.Leader).region_ranges =
      wTwo.region_ranges ∧
    mget (handle_role_change wTwo ⟨1, [], [97]⟩ StateRole.Leader).regions 1 =
      some ⟨⟨1, [], [97]⟩, StateRole.Leader, false⟩ := by
  have h := (C7_role_isolation_amended wTwo ⟨1, [], [97]⟩ StateRole.Leader).1
    ⟨⟨1, [], [97]⟩, StateRole.Follower, false⟩ (by decide)
  exact ⟨by decide, h.1, h.2.1⟩

/-- C8: if the create event's id is not yet present,
`handle_create_region` inserts `region_ranges[encode(end_key)] = id` and
a fresh `RegionInfo` with role Follower and `outdated = false` into
`regions`; if the id is already present it delegates to the update
handler instead of treating the event as an error. -/
theorem C8_create (s : RegionCollectionWorker) (r : Region) :
    ((mget s.regions r.id).isSome →
      handle_create_region s r = handle_update_region s r) ∧
    (mget s.regions r.id = none →
      mget (handle_create_region s r).regions r.id =
        some ⟨r, StateRole.Follower, false⟩ ∧
      mget (handle_create_region s r).region_ranges (data_end_key r.end_key) =
        some r.id ∧
      (∀ j, j ≠ r.id →
        mget (handle_create_region s r).regions j = mget s.regions j) ∧
      (∀ k, k ≠ data_end_key r.end_key →
        mget (handle_create_region s r).region_ranges k = mget s.region_ranges k)) := by
  constructor
  · exact create_eq_update_of_present
  · intro hc
    refine ⟨?_, ?_, ?_, ?_⟩
    · rw [mget_create_regions hc, if_pos rfl]
    · rw [mget_create_ranges hc, if_pos rfl]
    · intro j hj
      rw [mget_create_regions hc, if_neg hj]
    · intro k hk
      rw [mget_create_ranges hc, if_neg hk]

theorem C8_witness :
    ((mget wTwo.regions 1).isSome ∧
      handle_create_region wTwo ⟨1, [], [99]⟩ = handle_update_region wTwo ⟨1, [], [99]⟩) ∧
    mget wTwo.regions 7 = none ∧
    mget (handle_create_region wTwo ⟨7, [98], [99]⟩).regions 7 =
      some ⟨⟨7, [98], [99]⟩, StateRole.Follower, false⟩ ∧
    mget (handle_create_region wTwo ⟨7, [98], [99]⟩).region_ranges [122, 99] = some 7 := by
  have h7 := (C8_create wTwo ⟨7, [98], [99]⟩).2 (by decide)
  exact ⟨⟨by decide, (C8_create wTwo ⟨1, [], [99]⟩).1 (by decide)⟩, by decide, h7.1, h7.2.1⟩

/-- C5: with all range entries backed by `regions` and `limit > 0`, the
seek visits exactly the entries strictly after the encoded seek key in
ascending key order, returns `Found(region)` for the first visited entry
whose region is not outdated and passes the filter, and every call
produces exactly one result — a `some` of the inductive
`SeekRegionResult`, whose three constructors are mutually exclusive and
exhaustive. -/
theorem C5_seek_first_match (s : RegionCollectionWorker) (from_key : List Nat)
    (filter : Region → StateRole → Bool) (limit : Nat)
    (hWF : MapWF s.region_ranges)
    (hcov : ∀ e ∈ s.region_ranges, (mget s.regions e.2).isSome)
    (hlim : 0 < limit) :
    (∀ e ∈ seek_visited s from_key, data_key from_key < e.1) ∧
    List.Pairwise (fun a b => a.1 < b.1) (seek_visited s from_key) ∧
    (∃ r, handle_seek_region s from_key filter limit = some r) ∧
    (∀ i (hi : i < (seek_visited s from_key).length) (info : RegionInfo),
      i < limit →
      (∀ j (hj : j < i), ∃ infoj,
        mget s.regions ((seek_visited s from_key).get ⟨j, lt_trans hj hi⟩).2
          = some infoj ∧
          (!infoj.outdated && filter infoj.region infoj.role) = false) →
      mget s.regions ((seek_visited s from_key).get ⟨i, hi⟩).2 = some info →
      (!info.outdated && filter info.region info.role) = true →
      handle_seek_region s from_key filter limit =
        some (SeekRegionResult.Found info.region)) := by
  refine ⟨?_, ?_, ?_, ?_⟩
  · intro e he
    simp only [seek_visited, List.mem_filter] at he
    exact of_decide_eq_true he.2
  · exact List.Pairwise.sublist (List.filter_sublist _) hWF
  · have hs : (seek_scan s.regions filter (seek_visited s from_key) limit).isSome :=
      seek_scan_isSome _ _ (by omega) (fun e he => hcov e (List.mem_of_mem_filter he))
    obtain ⟨r, hr⟩ := Option.isSome_iff_exists.mp hs
    refine ⟨r, ?_⟩
    rw [handle_seek_region, if_neg (by omega : ¬limit = 0)]
    exact hr
  · intro i hi info hilim hfail hinfo hpass
    rw [handle_seek_region, if_neg (by omega : ¬limit = 0)]
    exact seek_scan_found _ limit i hi hilim hfail hinfo hpass

theorem C5_witness :
    (MapWF wTwo.region_ranges ∧
      (∀ e ∈ wTwo.region_ranges, (mget wTwo.regions e.2).isSome) ∧ 0 < 1) ∧
    (∃ r, handle_seek_region wTwo [] (fun _ _ => true) 1 = some r) ∧
    handle_seek_region wTwo [] (fun _ _ => true) 1 =
      some (SeekRegionResult.Found ⟨1, [], [97]⟩) := by
  have h := C5_seek_first_match wTwo [] (fun _ _ => true) 1
    (by decide) (by decide) (by decide)
  refine ⟨⟨by decide, by decide, by decide⟩, h.2.2.1, ?_⟩
  exact h.2.2.2 0 (by decide) ⟨⟨1, [], [97]⟩, StateRole.Follower, false⟩ (by decide)
    (fun j hj => absurd hj (Nat.not_lt_zero j)) (by decide) (by decide)

/-- C6: when every range key is a well-formed end-key encoding and the
first `limit > 0` visited entries all fail the filter: if the scan has
at least `limit` entries, the call stops at the `limit`-th visited
entry — returning `Ended` if that entry's key is the maximum-key
sentinel and otherwise `LimitExceeded` with `next_key` the decoding of
that key; if the scan runs out of entries before the budget is used up,
the call returns `Ended`. -/
theorem C6_seek_budget (s : RegionCollectionWorker) (from_key : List Nat)
    (filter : Region → StateRole → Bool) (limit : Nat)
    (hlim : 0 < limit)
    (himg : ∀ e ∈ s.region_ranges, ∃ k0, e.1 = data_end_key k0)
    (hfail : ∀ j (hj : j < (seek_visited s from_key).length), j < limit →
      ∃ infoj,
        mget s.regions ((seek_visited s from_key).get ⟨j, hj⟩).2 = some infoj ∧
          (!infoj.outdated && filter infoj.region infoj.role) = false) :
    ((hlen : limit ≤ (seek_visited s from_key).length) →
      handle_seek_region s from_key filter limit =
        some (if ((seek_visited s from_key).get ⟨limit - 1, by omega⟩).1 = DATA_MAX_KEY
          then SeekRegionResult.Ended
          else SeekRegionResult.LimitExceeded
            (origin_key ((seek_visited s from_key).get ⟨limit - 1, by omega⟩).1))) ∧
    ((seek_visited s from_key).length < limit →
      handle_seek_region s from_key filter limit = some SeekRegionResult.Ended) := by
  have hmax : ∀ e ∈ seek_visited s from_key,
      (DATA_MAX_KEY ≤ e.1 ↔ e.1 = DATA_MAX_KEY) := by
    intro e he
    obtain ⟨k0, hk0⟩ := himg e (List.mem_of_mem_filter he)
    rw [hk0]
    exact max_le_data_end_key_iff k0
  obtain ⟨p1, p2⟩ := seek_scan_all_fail (seek_visited s from_key) limit hlim hfail hmax
  constructor
  · intro hlen
    rw [handle_seek_region, if_neg (by omega : ¬limit = 0)]
    exact p1 hlen
  · intro hlen
    rw [handle_seek_region, if_neg (by omega : ¬limit = 0)]
    exact p2 hlen

theorem C6_witness :
    (0 < 1 ∧ 1 ≤ (seek_visited wTwo []).length ∧ (seek_visited wTwo []).length < 3) ∧
    handle_seek_region wTwo [] (fun _ _ => false) 1 =
      some (SeekRegionResult.LimitExceeded [97]) ∧
    handle_seek_region wTwo [] (fun _ _ => false) 3 = some SeekRegionResult.Ended := by
  have himg : ∀ e ∈ wTwo.region_ranges, ∃ k0, e.1 = data_end_key k0 := by
    intro e he
    simp only [wTwo, List.mem_cons, List.not_mem_nil, or_false] at he
    rcases he with rfl | rfl
    · exact ⟨[97], rfl⟩
    · exact ⟨[98], rfl⟩
  have hfail1 : ∀ j (hj : j < (seek_visited wTwo []).length), j < 1 →
      ∃ infoj, mget wTwo.regions ((seek_visited wTwo []).get ⟨j, hj⟩).2 = some infoj ∧
        (!infoj.outdated && (fun (_ : Region) (_ : StateRole) => false)
          infoj.region infoj.role) = false := by
    intro j hj hj1
    have hj0 : j = 0 := by omega
    subst hj0
    refine ⟨⟨⟨1, [], [97]⟩, StateRole.Follower, false⟩, ?_, by decide⟩
    show mget wTwo.regions ((seek_visited wTwo []).get ⟨0, by decide⟩).2 =
      some ⟨⟨1, [], [97]⟩, StateRole.Follower, false⟩
    decide
  have hfail3 : ∀ j (hj : j < (seek_visited wTwo []).length), j < 3 →
      ∃ infoj, mget wTwo.regions ((seek_visited wTwo []).get ⟨j, hj⟩).2 = some infoj ∧
        (!infoj.outdated && (fun (_ : Region) (_ : StateRole) => false)
          infoj.region infoj.role) = false := by
    intro j hj _
    have hj2 : j = 0 ∨ j = 1 := by
      have : (seek_visited wTwo []).length = 2 := by decide
      omega
    rcases hj2 with rfl | rfl
    · refine ⟨⟨⟨1, [], [97]⟩, StateRole.Follower, false⟩, ?_, by decide⟩
      show mget wTwo.regions ((seek_visited wTwo []).get ⟨0, by decide⟩).2 =
        some ⟨⟨1, [], [97]⟩, StateRole.Follower, false⟩
      decide
    · refine ⟨⟨⟨2, [97], [98]⟩, StateRole.Follower, false⟩, ?_, by decide⟩
      show mget wTwo.regions ((seek_visited wTwo []).get ⟨1, by decide⟩).2 =
        some ⟨⟨2, [97], [98]⟩, StateRole.Follower, false⟩
      decide
  have h1 := (C6_seek_budget wTwo [] (fun _ _ => false) 1 (by decide) himg hfail1).1
    (by decide)
  have h3 := (C6_seek_budget wTwo [] (fun _ _ => false) 3 (by decide) himg hfail3).2
    (by decide)
  refine ⟨⟨by decide, by decide, by decide⟩, ?_, h3⟩
  rw [h1]
  decide

/-- No handler ever stores a `RegionInfo` with `outdated = true`:
auxiliary step lemma for C9. -/
theorem outdated_false_update {s : RegionCollectionWorker}
    (h : ∀ e ∈ s.regions, e.2.outdated = false) (u : Region) :
    ∀ e ∈ (handle_update_region s u).regions, e.2.outdated = false := by
  intro e he
  cases hr : mget s.regions u.id with
  | some old =>
    simp only [handle_update_region, hr] at he
    rcases mem_minsert he with rfl | hmem
    · exact h (u.id, old) (mem_of_mget_eq_some hr)
    · exact h e hmem
  | none =>
    simp only [handle_update_region, hr] at he
    rcases mem_minsert he with rfl | hmem
    · rfl
    · exact h e hmem

theorem outdated_false_create {s : RegionCollectionWorker}
    (h : ∀ e ∈ s.regions, e.2.outdated = false) (c : Region) :
    ∀ e ∈ (handle_create_region s c).regions, e.2.outdated = false := by
  by_cases hc : (mget s.regions c.id).isSome
  · rw [create_eq_update_of_present hc]
    exact outdated_false_update h c
  · intro e he
    simp only [handle_create_region] at he
    rw [if_neg hc] at he
    rcases mem_minsert he with rfl | hmem
    · rfl
    · exact h e hmem

theorem outdated_false_destroy {s : RegionCollectionWorker}
    (h : ∀ e ∈ s.regions, e.2.outdated = false) (d : Region) :
    ∀ e ∈ (handle_destroy_region s d).regions, e.2.outdated = false := by
  intro e he
  cases hr : mget s.regions d.id with
  | some old =>
    simp only [handle_destroy_region, hr] at he
    exact h e (mem_mremove he)
  | none =>
    rw [destroy_absent hr] at he
    exact h e he

theorem outdated_false_role_change {s : RegionCollectionWorker}
    (h : ∀ e ∈ s.regions, e.2.outdated = false) (x : Region) (ρ : StateRole) :
    ∀ e ∈ (handle_role_change s x ρ).regions, e.2.outdated = false := by
  intro e he
  cases hx : mget s.regions x.id with
  | some old =>
    simp only [handle_role_change, hx, Option.isNone_some, Bool.false_eq_true,
      if_false] at he
    rcases mem_minsert he with rfl | hmem
    · exact h (x.id, old) (mem_of_mget_eq_some hx)
    · exact h e hmem
  | none =>
    rw [role_change_unknown hx] at he
    simp only at he
    rcases mem_minsert he with rfl | hmem
    · rfl
    · exact outdated_false_create h x e hmem

/-- C9: in every state reachable from the empty store by any finite
sequence of create, update, destroy and role-change handler
applications, every stored `RegionInfo` has `outdated = false` — no
handler ever sets the flag to true. -/
theorem C9_outdated_always_false (s : RegionCollectionWorker) (h : Reachable s) :
    ∀ e ∈ s.regions, e.2.outdated = false := by
  obtain ⟨evs, rfl⟩ := h
  have step : ∀ (t : RegionCollectionWorker),
      (∀ e ∈ t.regions, e.2.outdated = false) →
      ∀ e ∈ (applyEvents t evs).regions, e.2.outdated = false := by
    induction evs with
    | nil => exact fun t ht => ht
    | cons ev rest ih =>
      intro t ht
      refine ih _ ?_
      cases ev with
      | CreateRegion r => exact outdated_false_create ht r
      | UpdateRegion r => exact outdated_false_update ht r
      | DestroyRegion r => exact outdated_false_destroy ht r
      | RoleChange r ρ => exact outdated_false_role_change ht r ρ
  refine step RegionCollectionWorker.new ?_
  intro e he
  simp [RegionCollectionWorker.new] at he

theorem C9_witness :
    Reachable wReach ∧
    ((1, (⟨⟨1, [], [97]⟩, StateRole.Leader, false⟩ : RegionInfo)) ∈ wReach.regions →
      (1, (⟨⟨1, [], [97]⟩, StateRole.Leader, false⟩ : RegionInfo)).2.outdated = false) :=
  ⟨⟨_, rfl⟩, fun hm => C9_outdated_always_false wReach ⟨_, rfl⟩ _ hm⟩

/-- C10: in every reachable state, every `region_ranges` entry `(k, id)`
satisfies: `id` is present in `regions` and the encoding of that
region's current end key is exactly `k`.  Consequently the unchecked
lookup `regions[region_id]` in `handle_seek_region` always succeeds —
the scan never hits its panic branch — for all seek arguments with
`limit > 0`. -/
theorem C10_no_dangling_entries (s : RegionCollectionWorker) (h : Reachable s) :
    (∀ e ∈ s.region_ranges, ∃ info, mget s.regions e.2 = some info ∧
      data_end_key info.region.end_key = e.1) ∧
    (∀ (from_key : List Nat) (filter : Region → StateRole → Bool) (limit : Nat),
      0 < limit → ∃ r, handle_seek_region s from_key filter limit = some r) := by
  have hco := coherent_reachable h
  refine ⟨hco, ?_⟩
  intro from_key filter limit hlim
  have hcov : ∀ e ∈ seek_visited s from_key, (mget s.regions e.2).isSome := by
    intro e he
    obtain ⟨info, hinfo, -⟩ := hco e (List.mem_of_mem_filter he)
    rw [hinfo]
    rfl
  have hs : (seek_scan s.regions filter (seek_visited s from_key) limit).isSome :=
    seek_scan_isSome _ _ (by omega) hcov
  obtain ⟨r, hr⟩ := Option.isSome_iff_exists.mp hs
  refine ⟨r, ?_⟩
  rw [handle_seek_region, if_neg (by omega : ¬limit = 0)]
  exact hr

theorem C10_witness :
    Reachable wReach ∧ 0 < 1 ∧
    (handle_seek_region wReach [] (fun _ _ => true) 1).isSome = true := by
  refine ⟨⟨_, rfl⟩, by decide, ?_⟩
  obtain ⟨r, hr⟩ := (C10_no_dangling_entries wReach ⟨_, rfl⟩).2 [] (fun _ _ => true) 1
    (by decide)
  rw [hr]
  rfl

/-- C1: splitting a region R (end key E) into R1 (R's id, new end key
e1), R2 (new id, end key e2) and R3 (new id, end key E) — one update on
R's id plus two creates, with pairwise-distinct end keys — yields the
identical final `(regions, region_ranges)` pair under all 3! orders of
application. -/
theorem C1_split_reorder_convergence (s : RegionCollectionWorker)
    (r1 r2 r3 : Region) (old : RegionInfo)
    (hWF : WorkerWF s)
    (h1 : mget s.regions r1.id = some old)
    (h2 : mget s.regions r2.id = none)
    (h3 : mget s.regions r3.id = none)
    (h23 : r2.id ≠ r3.id)
    (hE : r3.end_key = old.region.end_key)
    (h12 : r1.end_key ≠ r2.end_key)
    (h13 : r1.end_key ≠ r3.end_key)
    (h23e : r2.end_key ≠ r3.end_key) :
    applyEvents s [RaftStoreEvent.UpdateRegion r1, RaftStoreEvent.CreateRegion r2,
        RaftStoreEvent.CreateRegion r3] =
      applyEvents s [RaftStoreEvent.UpdateRegion r1, RaftStoreEvent.CreateRegion r3,
        RaftStoreEvent.CreateRegion r2] ∧
    applyEvents s [RaftStoreEvent.UpdateRegion r1, RaftStoreEvent.CreateRegion r2,
        RaftStoreEvent.CreateRegion r3] =
      applyEvents s [RaftStoreEvent.CreateRegion r2, RaftStoreEvent.UpdateRegion r1,
        RaftStoreEvent.CreateRegion r3] ∧
    applyEvents s [RaftStoreEvent.UpdateRegion r1, RaftStoreEvent.CreateRegion r2,
        RaftStoreEvent.CreateRegion r3] =
      applyEvents s [RaftStoreEvent.CreateRegion r2, RaftStoreEvent.CreateRegion r3,
        RaftStoreEvent.UpdateRegion r1] ∧
    applyEvents s [RaftStoreEvent.UpdateRegion r1, RaftStoreEvent.CreateRegion r2,
        RaftStoreEvent.CreateRegion r3] =
      applyEvents s [RaftStoreEvent.CreateRegion r3, RaftStoreEvent.UpdateRegion r1,
        RaftStoreEvent.CreateRegion r2] ∧
    applyEvents s [RaftStoreEvent.UpdateRegion r1, RaftStoreEvent.CreateRegion r2,
        RaftStoreEvent.CreateRegion r3] =
      applyEvents s [RaftStoreEvent.CreateRegion r3, RaftStoreEvent.CreateRegion r2,
        RaftStoreEvent.UpdateRegion r1] := by
  have h21 : r2.id ≠ r1.id := fun h => by
    rw [h, h1] at h2
    exact Option.noConfusion h2
  have h31 : r3.id ≠ r1.id := fun h => by
    rw [h, h1] at h3
    exact Option.noConfusion h3
  have hWFU := workerwf_update hWF r1
  have hWFA := workerwf_create hWF r2
  have hWFB := workerwf_create hWF r3
  have h2U : mget (handle_update_region s r1).regions r2.id = none := by
    rw [mget_update_regions_present h1, if_neg h21]
    exact h2
  have h3U : mget (handle_update_region s r1).regions r3.id = none := by
    rw [mget_update_regions_present h1, if_neg h31]
    exact h3
  have h1A : mget (handle_create_region s r2).regions r1.id = some old := by
    rw [mget_create_regions h2, if_neg (Ne.symm h21)]
    exact h1
  have h3A : mget (handle_create_region s r2).regions r3.id = none := by
    rw [mget_create_regions h2, if_neg (Ne.symm h23)]
    exact h3
  have h1B : mget (handle_create_region s r3).regions r1.id = some old := by
    rw [mget_create_regions h3, if_neg (Ne.symm h31)]
    exact h1
  have h2B : mget (handle_create_region s r3).regions r2.id = none := by
    rw [mget_create_regions h3, if_neg h23]
    exact h2
  have eAB : handle_create_region (handle_create_region (handle_update_region s r1) r2) r3 =
      handle_create_region (handle_create_region (handle_update_region s r1) r3) r2 :=
    create_create_comm hWFU h2U h3U h23 h23e
  have eUA : handle_create_region (handle_update_region s r1) r2 =
      handle_update_region (handle_create_region s r2) r1 :=
    update_create_comm hWF h1 h2 h12
  have eUB : handle_create_region (handle_update_region s r1) r3 =
      handle_update_region (handle_create_region s r3) r1 :=
    update_create_comm hWF h1 h3 h13
  have eA_UB : handle_create_region (handle_update_region (handle_create_region s r2) r1) r3 =
      handle_update_region (handle_create_region (handle_create_region s r2) r3) r1 :=
    update_create_comm hWFA h1A h3A h13
  have eB_UA : handle_create_region (handle_update_region (handle_create_region s r3) r1) r2 =
      handle_update_region (handle_create_region (handle_create_region s r3) r2) r1 :=
    update_create_comm hWFB h1B h2B h12
  refine ⟨?_, ?_, ?_, ?_, ?_⟩ <;>
    simp only [applyEvents, List.foldl, handle_raftstore_event]
  · exact eAB
  · rw [eUA]
  · rw [eUA]
    exact eA_UB
  · rw [eAB, eUB]
  · rw [eAB, eUB]
    exact eB_UA

theorem C1_witness :
    (WorkerWF wSplit ∧
      mget wSplit.regions 2 =
        some ⟨⟨2, [107, 49], [107, 57]⟩, StateRole.Follower, false⟩ ∧
      mget wSplit.regions 4 = none ∧ mget wSplit.regions 5 = none ∧
      (4 : Nat) ≠ 5 ∧
      ([107, 57] : List Nat) = [107, 57] ∧
      ([107, 51] : List Nat) ≠ [107, 54] ∧
      ([107, 51] : List Nat) ≠ [107, 57] ∧
      ([107, 54] : List Nat) ≠ [107, 57]) ∧
    applyEvents wSplit [RaftStoreEvent.UpdateRegion ⟨2, [107, 49], [107, 51]⟩,
        RaftStoreEvent.CreateRegion ⟨4, [107, 51], [107, 54]⟩,
        RaftStoreEvent.CreateRegion ⟨5, [107, 54], [107, 57]⟩] =
      applyEvents wSplit [RaftStoreEvent.CreateRegion ⟨5, [107, 54], [107, 57]⟩,
        RaftStoreEvent.CreateRegion ⟨4, [107, 51], [107, 54]⟩,
        RaftStoreEvent.UpdateRegion ⟨2, [107, 49], [107, 51]⟩] := by
  have h := C1_split_reorder_convergence wSplit
    ⟨2, [107, 49], [107, 51]⟩ ⟨4, [107, 51], [107, 54]⟩ ⟨5, [107, 54], [107, 57]⟩
    ⟨⟨2, [107, 49], [107, 57]⟩, StateRole.Follower, false⟩
    (by decide) (by decide) (by decide) (by decide) (by decide) (by decide)
    (by decide) (by decide) (by decide)
  exact ⟨⟨by decide, by decide, by decide, by decide, by decide, by decide, by decide,
    by decide, by decide⟩, h.2.2.2.2⟩

/-- C2: merging two adjacent regions A and B — an update extending the
survivor's boundary over both, plus a destroy of the other region —
produces the same final `(regions, region_ranges)` pair whether the
update handler or the destroy handler runs first. -/
theorem C2_merge_symmetry (s : RegionCollectionWorker) (a b : Nat)
    (ia ib : RegionInfo) (u d : Region)
    (hWF : WorkerWF s)
    (ha : mget s.regions a = some ia)
    (hb : mget s.regions b = some ib)
    (hab : a ≠ b)
    (hadj : ia.region.end_key = ib.region.start_key ∨
      ib.region.end_key = ia.region.start_key)
    (hui : u.id = a) (hdi : d.id = b)
    (hext : (u.start_key = ia.region.start_key ∧ u.end_key = ib.region.end_key) ∨
      (u.start_key = ib.region.start_key ∧ u.end_key = ia.region.end_key)) :
    handle_destroy_region (handle_update_region s u) d =
      handle_update_region (handle_destroy_region s d) u := by
  subst hui
  subst hdi
  exact update_destroy_comm hWF ha hb hab

theorem C2_witness :
    (WorkerWF wTwo ∧
      mget wTwo.regions 1 = some ⟨⟨1, [], [97]⟩, StateRole.Follower, false⟩ ∧
      mget wTwo.regions 2 = some ⟨⟨2, [97], [98]⟩, StateRole.Follower, false⟩ ∧
      (1 : Nat) ≠ 2 ∧ ([97] : List Nat) = [97] ∧
      ([] : List Nat) = [] ∧ ([98] : List Nat) = [98]) ∧
    handle_destroy_region (handle_update_region wTwo ⟨1, [], [98]⟩) ⟨2, [], []⟩ =
      handle_update_region (handle_destroy_region wTwo ⟨2, [], []⟩) ⟨1, [], [98]⟩ :=
  ⟨⟨by decide, by decide, by decide, by decide, by decide, by decide, by decide⟩,
    C2_merge_symmetry wTwo 1 2
      ⟨⟨1, [], [97]⟩, StateRole.Follower, false⟩
      ⟨⟨2, [97], [98]⟩, StateRole.Follower, false⟩
      ⟨1, [], [98]⟩ ⟨2, [], []⟩
      (by decide) (by decide) (by decide) (by decide)
      (Or.inl (by decide)) (by decide) (by decide)
      (Or.inl (by decide))⟩

end RegionCollection
